import Mathlib

/-!
Verification development for the form component of `react-dilemma`
(`src/Form.tsx`).

The source file contains two implementation variants of the same form,
separated by a document marker:

* a registration-based variant (the README's "Solution 4"), in which each
  sub-form registers its validator with the container via `setValidator`
  in a mount effect; and
* a registry-based variant (the README's "Solution 2"), in which a
  `subForms` table maps each URL kind to an `isValid` function and a
  component.

Strings of the TypeScript program are embedded as `List Char`.  The
platform functions the program calls (`new URL`, `URLSearchParams`,
`String.prototype.replace`, the regular expression `/\d+/`) are modelled
explicitly below; each model carries a doc comment stating its scope.

React state is modelled at user-event granularity: effects React flushes
before the next discrete user event (the sub-forms' mount effects) are
folded into the transition that mounts the sub-form, so a state of the
machine is the state the next user event observes.  `useState` setters
follow React's semantics: a non-function argument is stored as-is, while
a function argument is invoked as an updater on the previous stored
value.  The registration-based variant's bare `setValidator(...)` calls
therefore never store a function: the email updater call stores the
boolean `isEmailUrlValid(null)`, and the telephone updater call throws a
TypeError (`prev.replace` on a non-string), modelled as a crashed
machine state.
-/

namespace ReactDilemma

/-- JavaScript strings are embedded as lists of characters. -/
abbrev Str := List Char

/-- ASCII digit test: the character class `\d` of JavaScript regular
expressions. -/
def isDigitChar (c : Char) : Bool := 48 ≤ c.toNat && c.toNat ≤ 57

/-- Whether a string contains an ASCII digit: models the test
`!!str.match(/\d+/)` from the source. -/
def hasDigit (s : Str) : Bool := s.any isDigitChar

/-- Models `url.replace('tel:', '')`: removes the first occurrence of the
substring `tel:` anywhere in the string (not only as a scheme), leaving
the string unchanged when no occurrence exists. -/
def replaceFirstTel : Str → Str
  | [] => []
  | c :: cs =>
    if c = 't' ∧ cs.take 3 = ['e', 'l', ':'] then cs.drop 3
    else c :: replaceFirstTel cs

/-- Source `telephoneFromUrl`: `url.replace('tel:', '')`. -/
def telephoneFromUrl (url : Str) : Str := replaceFirstTel url

/-- Source `urlFromTelephone`: the template literal `` `tel:${telephone}` ``. -/
def urlFromTelephone (telephone : Str) : Str := "tel:".data ++ telephone

/-! ### Model of `URLSearchParams` serialization and parsing

`URLSearchParams` serializes and parses pairs in the
`application/x-www-form-urlencoded` format: space becomes `+`, ASCII
alphanumerics and `*`, `-`, `.`, `_` pass through, and every other
character is percent-encoded as the uppercase-hex encoding of its UTF-8
bytes.  Bytes are represented as natural numbers below 256. -/

/-- ASCII alphanumeric test (on code points). -/
def isAsciiAlphanum (c : Char) : Bool :=
  (48 ≤ c.toNat && c.toNat ≤ 57) || (65 ≤ c.toNat && c.toNat ≤ 90) ||
    (97 ≤ c.toNat && c.toNat ≤ 122)

/-- Characters the `application/x-www-form-urlencoded` serializer leaves
unencoded. -/
def isFormSafe (c : Char) : Bool :=
  isAsciiAlphanum c || c == '*' || c == '-' || c == '.' || c == '_'

/-- UTF-8 encoding of one code point, as a list of bytes. -/
def utf8EncodeChar (c : Char) : List Nat :=
  let n := c.toNat
  if n < 0x80 then [n]
  else if n < 0x800 then [0xC0 + n / 0x40, 0x80 + n % 0x40]
  else if n < 0x10000 then
    [0xE0 + n / 0x1000, 0x80 + (n / 0x40) % 0x40, 0x80 + n % 0x40]
  else
    [0xF0 + n / 0x40000, 0x80 + (n / 0x1000) % 0x40, 0x80 + (n / 0x40) % 0x40,
      0x80 + n % 0x40]

/-- Uppercase hexadecimal digit for a value below 16. -/
def hexUpper (n : Nat) : Char :=
  if n < 10 then Char.ofNat (48 + n) else Char.ofNat (55 + n)

/-- Percent-encoding of one byte, `%XX` with uppercase hex digits. -/
def pctByte (b : Nat) : Str := ['%', hexUpper (b / 16), hexUpper (b % 16)]

/-- Serialization of one character in `application/x-www-form-urlencoded`
format. -/
def encChar (c : Char) : Str :=
  if isFormSafe c then [c]
  else if c = ' ' then ['+']
  else (utf8EncodeChar c).flatMap pctByte

/-- Serialization of a string in `application/x-www-form-urlencoded`
format. -/
def formUrlEncode (s : Str) : Str := s.flatMap encChar

/-- Value of a hexadecimal digit character (either case), or `none`. -/
def hexVal (c : Char) : Option Nat :=
  if 48 ≤ c.toNat ∧ c.toNat ≤ 57 then some (c.toNat - 48)
  else if 65 ≤ c.toNat ∧ c.toNat ≤ 70 then some (c.toNat - 55)
  else if 97 ≤ c.toNat ∧ c.toNat ≤ 102 then some (c.toNat - 87)
  else none

/-- Byte-level `application/x-www-form-urlencoded` decoding: `+` becomes a
space byte, `%` followed by two hexadecimal digits becomes that byte, and
every other character contributes its UTF-8 bytes.  A `%` not followed by
two hexadecimal digits is kept literally. -/
def formUrlDecodeBytes : Str → List Nat
  | [] => []
  | c :: cs =>
    if c = '+' then 0x20 :: formUrlDecodeBytes cs
    else if c = '%' then
      match cs with
      | c1 :: c2 :: cs2 =>
        match hexVal c1, hexVal c2 with
        | some h, some l => (16 * h + l) :: formUrlDecodeBytes cs2
        | _, _ => 0x25 :: formUrlDecodeBytes (c1 :: c2 :: cs2)
      | [c1] => 0x25 :: formUrlDecodeBytes [c1]
      | [] => [0x25]
    else utf8EncodeChar c ++ formUrlDecodeBytes cs

/-- Whether a byte is a UTF-8 continuation byte. -/
def isContByte (b : Nat) : Bool := 0x80 ≤ b && b ≤ 0xBF

/-- The Unicode replacement character. -/
def repChar : Char := Char.ofNat 0xFFFD

/-- Whether a byte is the lead byte of a two-byte UTF-8 sequence. -/
def isLead2 (b : Nat) : Bool := 0xC2 ≤ b && b ≤ 0xDF

/-- Whether a byte is the lead byte of a three-byte UTF-8 sequence. -/
def isLead3 (b : Nat) : Bool := 0xE0 ≤ b && b ≤ 0xEF

/-- Whether a byte is the lead byte of a four-byte UTF-8 sequence. -/
def isLead4 (b : Nat) : Bool := 0xF0 ≤ b && b ≤ 0xF4

/-- Valid second byte of a three-byte sequence (excludes overlong and
surrogate encodings). -/
def cont3Ok (b b2 : Nat) : Bool :=
  if b = 0xE0 then 0xA0 ≤ b2 && b2 ≤ 0xBF
  else if b = 0xED then 0x80 ≤ b2 && b2 ≤ 0x9F
  else isContByte b2

/-- Valid second byte of a four-byte sequence (excludes overlong
encodings and code points beyond U+10FFFF). -/
def cont4Ok (b b2 : Nat) : Bool :=
  if b = 0xF0 then 0x90 ≤ b2 && b2 ≤ 0xBF
  else if b = 0xF4 then 0x80 ≤ b2 && b2 ≤ 0x8F
  else isContByte b2

/-- Code point of a two-byte UTF-8 sequence. -/
def decode2 (b b2 : Nat) : Char := Char.ofNat ((b - 0xC0) * 0x40 + (b2 - 0x80))

/-- Code point of a three-byte UTF-8 sequence. -/
def decode3 (b b2 b3 : Nat) : Char :=
  Char.ofNat ((b - 0xE0) * 0x1000 + (b2 - 0x80) * 0x40 + (b3 - 0x80))

/-- Code point of a four-byte UTF-8 sequence. -/
def decode4 (b b2 b3 b4 : Nat) : Char :=
  Char.ofNat ((b - 0xF0) * 0x40000 + (b2 - 0x80) * 0x1000 +
    (b3 - 0x80) * 0x40 + (b4 - 0x80))

/-- One step of UTF-8 decoding: the character decoded at the head of the
input and the remaining input.  A valid sequence is consumed whole; an
invalid or truncated lead consumes one byte and yields a replacement
character. -/
def utf8DecodeStep (b : Nat) (bs : List Nat) : Char × List Nat :=
  if b < 0x80 then (Char.ofNat b, bs)
  else if isLead2 b then
    match bs with
    | b2 :: bs2 =>
      if isContByte b2 then (decode2 b b2, bs2) else (repChar, bs)
    | [] => (repChar, [])
  else if isLead3 b then
    match bs with
    | b2 :: b3 :: bs3 =>
      if cont3Ok b b2 && isContByte b3 then (decode3 b b2 b3, bs3)
      else (repChar, bs)
    | _ => (repChar, bs)
  else if isLead4 b then
    match bs with
    | b2 :: b3 :: b4 :: bs4 =>
      if cont4Ok b b2 && isContByte b3 && isContByte b4 then
        (decode4 b b2 b3 b4, bs4)
      else (repChar, bs)
    | _ => (repChar, bs)
  else (repChar, bs)

/-- UTF-8 decoding steps driven by fuel; each step consumes at least one
byte, so fuel equal to the input length always suffices. -/
def utf8DecodeAux : Nat → List Nat → List Char
  | 0, _ => []
  | _ + 1, [] => []
  | fuel + 1, b :: bs =>
    (utf8DecodeStep b bs).1 :: utf8DecodeAux fuel (utf8DecodeStep b bs).2

/-- UTF-8 decoding of a byte sequence.  Well-formed sequences decode to
their code points; ill-formed sequences yield replacement characters
(their exact grouping, which no claim depends on, is approximate). -/
def utf8DecodeBytes (l : List Nat) : List Char := utf8DecodeAux l.length l

/-- String-level `application/x-www-form-urlencoded` decoding, as applied
by `URLSearchParams` to names and values. -/
def formUrlDecode (s : Str) : Str := utf8DecodeBytes (formUrlDecodeBytes s)

/-! ### Model of the WHATWG `URL` constructor

The program only ever constructs `mailto:` and `tel:` URLs, whose schemes
are not special, so the model below implements the WHATWG URL parser's
behaviour for URLs with a non-special scheme and applies it to every
scheme uniformly: input cleaning (trimming of leading and trailing C0
controls and spaces, removal of all tabs and newlines), scheme parsing,
the authority shortcut for inputs whose remainder starts with `//`, an
opaque path otherwise, and the query.  The percent-encoding the parser
applies to C0 controls and non-ASCII code points in the path, and dot
normalization of slash-separated paths, are not modelled; no claim
depends on either.  Parsing fails (the constructor throws) exactly when
the input has no valid scheme. -/

/-- Result of a successful `new URL(...)` call, restricted to the members
the program reads: `pathname` and the query string behind `searchParams`. -/
structure URLRec where
  scheme : Str
  pathname : Str
  search : Str
deriving DecidableEq

/-- Whether a character is a C0 control or a space (the set trimmed from
both ends of a URL before parsing). -/
def isC0OrSpace (c : Char) : Bool := c.toNat ≤ 0x20

/-- Whether a character is an ASCII tab or newline (removed everywhere in
a URL before parsing). -/
def isTabOrNewline (c : Char) : Bool := c == '\t' || c == '\n' || c == '\r'

/-- Input cleaning performed by the URL parser: trim leading and trailing
C0 controls and spaces, then remove every tab and newline. -/
def cleanUrl (s : Str) : Str :=
  (((s.dropWhile isC0OrSpace).reverse.dropWhile isC0OrSpace).reverse).filter
    (fun c => !isTabOrNewline c)

/-- ASCII alphabetic test (on code points). -/
def isAsciiAlpha (c : Char) : Bool :=
  (65 ≤ c.toNat && c.toNat ≤ 90) || (97 ≤ c.toNat && c.toNat ≤ 122)

/-- Characters allowed after the first character of a URL scheme. -/
def isSchemeChar (c : Char) : Bool :=
  isAsciiAlphanum c || c == '+' || c == '-' || c == '.'

/-- ASCII lowercasing of one character, as applied to schemes. -/
def asciiLower (c : Char) : Char :=
  if 65 ≤ c.toNat ∧ c.toNat ≤ 90 then Char.ofNat (c.toNat + 32) else c

/-- Scheme parsing: an ASCII alphabetic character followed by scheme
characters and a colon.  Returns the lowercased scheme and the remainder
after the colon, or `none` (the constructor throws). -/
def parseScheme (s : Str) : Option (Str × Str) :=
  match s with
  | [] => none
  | c :: _ =>
    if isAsciiAlpha c then
      match s.dropWhile isSchemeChar with
      | ':' :: r => some ((s.takeWhile isSchemeChar).map asciiLower, r)
      | _ => none
    else none

/-- Whether a character terminates a path (start of query or fragment). -/
def isPathEnd (c : Char) : Bool := c == '?' || c == '#'

/-- Query extraction: the remainder after the path yields a query exactly
when it starts with `?`, up to a fragment marker. -/
def extractSearch : Str → Str
  | '?' :: r => r.takeWhile (fun c => !(c == '#'))
  | _ => []

/-- Code points forbidden in an opaque host: a URL whose authority holds
one fails to parse (the constructor throws).  `#`, `/`, `?` cannot reach
the host (they delimit the authority), `:` and `@` are consumed by the
port and userinfo splits, and tabs and newlines are removed beforehand,
but all are kept here as the standard lists them. -/
def forbiddenHostChar (c : Char) : Bool :=
  c.toNat == 0 || c == '\t' || c == '\n' || c == '\r' || c == ' ' ||
    c == '#' || c == '/' || c == ':' || c == '<' || c == '>' || c == '?' ||
    c == '@' || c == '[' || c == '\\' || c == ']' || c == '^' || c == '|'

/-- Numeric value of a string of decimal digits. -/
def digitsVal (l : Str) : Nat := l.foldl (fun a c => a * 10 + (c.toNat - 48)) 0

/-- Validity of the authority of a URL with a non-special scheme: after
splitting any userinfo at the last `@` (userinfo is percent-encoded and
cannot fail), the host must avoid forbidden host code points and a port
after `:` must be decimal digits with value at most 65535; a present
userinfo requires a non-empty host part.  Bracketed IPv6 hosts are not
modelled (they count as failing); no claim depends on them. -/
def authorityOk (auth : Str) : Bool :=
  let hostport := (auth.reverse.takeWhile fun c => !(c == '@')).reverse
  let host := hostport.takeWhile fun c => !(c == ':')
  let rest := hostport.dropWhile fun c => !(c == ':')
  (!(auth.contains '@' && hostport.isEmpty)) &&
    host.all (fun c => !forbiddenHostChar c) &&
    (match rest with
     | ':' :: port => port.all isDigitChar && digitsVal port ≤ 65535
     | _ => true)

/-- Path and query of the remainder after the scheme.  An input starting
with `//` parses an authority — failing (the constructor throws) on a
forbidden host code point or a malformed port — followed by an optional
slash-led path; anything else is a path running to the first `?` or `#`.
The model keeps a single-`/`-led remainder verbatim, whereas the real
parser's path state additionally dot-normalizes segments and
percent-encodes with the path set (a space becomes `%20`); likewise a
space immediately before `?` or `#` in an opaque path is percent-encoded
by the standard but kept by the model.  Theorems about decoded pathname
values therefore carry hypotheses restricting the address to the region
where the model is exact; claims about parse success and the scheme are
unaffected, since the path state never fails and keeps slash-led paths
non-empty. -/
def parseAfterScheme (r : Str) : Option (Str × Str) :=
  match r with
  | '/' :: '/' :: r2 =>
    let auth := r2.takeWhile fun c => !(c == '/' || isPathEnd c)
    let afterAuth := r2.dropWhile fun c => !(c == '/' || isPathEnd c)
    if authorityOk auth then
      some (afterAuth.takeWhile (fun c => !isPathEnd c),
        extractSearch (afterAuth.dropWhile fun c => !isPathEnd c))
    else none
  | _ =>
    some (r.takeWhile (fun c => !isPathEnd c),
      extractSearch (r.dropWhile fun c => !isPathEnd c))

/-- Model of `new URL(url)`: `none` models the constructor throwing,
either for a missing scheme or for an invalid authority. -/
def parseUrl (url : Str) : Option URLRec :=
  match parseScheme (cleanUrl url) with
  | none => none
  | some (sch, rest) =>
    (parseAfterScheme rest).map fun pq => ⟨sch, pq.1, pq.2⟩

/-! ### Model of `URLSearchParams` pair access -/

/-- Splitting of a query on `&`, as `URLSearchParams` does. -/
def splitAmp : Str → List Str
  | [] => [[]]
  | c :: cs =>
    if c = '&' then [] :: splitAmp cs
    else
      match splitAmp cs with
      | [] => [[c]]
      | p :: ps => (c :: p) :: ps

/-- Splitting of one `name=value` sequence at its first `=`; a sequence
without `=` is a name with an empty value. -/
def pairOf (s : Str) : Str × Str :=
  match s.dropWhile (fun c => !(c == '=')) with
  | '=' :: v => (s.takeWhile (fun c => !(c == '=')), v)
  | _ => (s.takeWhile (fun c => !(c == '=')), [])

/-- Model of `URLSearchParams.get(name)` on a raw query string: the
decoded value of the first non-empty `name=value` sequence whose decoded
name equals `name`, or `none` (JavaScript `null`). -/
def searchParamsGet (query : Str) (name : Str) : Option Str :=
  ((splitAmp query).filter (fun p => !p.isEmpty)).findSome? fun p =>
    if formUrlDecode (pairOf p).1 = name then some (formUrlDecode (pairOf p).2)
    else none

/-! ### The email codec from the source -/

/-- The `{email, subject, body}` record the email sub-form edits. -/
structure EmailParts where
  email : Str
  subject : Str
  body : Str
deriving DecidableEq

/-- Serialization of `new URLSearchParams({subject, body})`: the pairs in
property order, names literal, values form-urlencoded. -/
def serializeQuery (subject body : Str) : Str :=
  "subject=".data ++ formUrlEncode subject ++ "&body=".data ++
    formUrlEncode body

/-- Source `urlFromEmailParts`: `new URLSearchParams({subject, body})`
serialized after `mailto:${email}?`. -/
def urlFromEmailParts (p : EmailParts) : Str :=
  "mailto:".data ++ p.email ++ '?' :: serializeQuery p.subject p.body

/-- Source `emailPartsFromUrl`: parse with `new URL`, returning all-empty
parts when the constructor throws; otherwise the `pathname` and the
`subject` and `body` query parameters (empty when absent, via `|| ''`). -/
def emailPartsFromUrl (url : Str) : EmailParts :=
  match parseUrl url with
  | none => ⟨[], [], []⟩
  | some u =>
    ⟨u.pathname, (searchParamsGet u.search "subject".data).getD [],
      (searchParamsGet u.search "body".data).getD []⟩

/-! ### Kinds, sub-form state and events, shared by both variants -/

/-- The URL kinds, the keys of the `subForms` table. -/
inductive UrlType where
  | email
  | telephone
deriving DecidableEq

/-- Local state of the mounted sub-form: the telephone input's value, or
the email form's parts record. -/
inductive Fields where
  | tel (t : Str)
  | mail (p : EmailParts)
deriving DecidableEq

/-- The three inputs of the email sub-form, the `dataType` argument of its
`onChange`. -/
inductive EmailField where
  | email
  | subject
  | body
deriving DecidableEq

/-- Update of one field of the email parts record, modelling
`{ ...emailParts, [dataType]: event.target.value }`. -/
def setEmailField (f : EmailField) (v : Str) (p : EmailParts) : EmailParts :=
  match f with
  | .email => { p with email := v }
  | .subject => { p with subject := v }
  | .body => { p with body := v }

/-- Initial local state of the sub-form mounted for a kind, decoded from
the container's current URL. -/
def mountFields (k : UrlType) (url : Str) : Fields :=
  match k with
  | .telephone => .tel (telephoneFromUrl url)
  | .email => .mail (emailPartsFromUrl url)

/-- The acknowledgment `onSave` surfaces via `alert`: either
`Saved url ${url}` or `invalid url: ${url}`. -/
inductive Ack where
  | saved (url : Str)
  | invalid (url : Str)
deriving DecidableEq

/-- User events the form reacts to.  `blur` is the `onBlur` of the inputs
wired to `validate`; `save` covers both the save button and the Enter key
in the telephone input, which call the same `onSave`.  A `selectKind`
event exists only for a kind different from the selected one, since the
select control fires `onChange` only when its value changes; this is
enforced by a guard in the step functions. -/
inductive Event where
  | selectKind (k : UrlType)
  | editTelephone (t : Str)
  | editEmailField (f : EmailField) (v : Str)
  | blur
  | save
deriving DecidableEq

/-- The container's default URL. -/
def initialUrl : Str := "mailto:me@gmail.com?subject=subject&body=body".data

namespace Registry

/-- The validators of the registry-based variant, defined at top level of
the source and stored in the `subForms` table. -/
def isEmailUrlValid (url : Str) : Bool := !(emailPartsFromUrl url).email.isEmpty

/-- Source `isTelephoneUrlValid` of the registry-based variant. -/
def isTelephoneUrlValid (url : Str) : Bool := hasDigit (telephoneFromUrl url)

/-- The `isValid` member of the `subForms` registry entry for a kind. -/
def subFormIsValid (k : UrlType) : Str → Bool :=
  match k with
  | .email => isEmailUrlValid
  | .telephone => isTelephoneUrlValid

/-- Container state of the registry-based variant, together with the local
state of the mounted sub-form. -/
structure FormState where
  urlType : UrlType
  url : Str
  error : Bool
  fields : Fields
deriving DecidableEq

/-- Initial state: kind `email`, the default URL, no error, and the email
sub-form mounted on the default URL. -/
def init : FormState :=
  ⟨.email, initialUrl, false, mountFields .email initialUrl⟩

/-- The render-time `isValid`: `subForm.isValid(url)`. -/
def isValidState (s : FormState) : Bool := subFormIsValid s.urlType s.url

/-- Source `validate`: `setError(!isValid)`. -/
def validate (s : FormState) : FormState := { s with error := !isValidState s }

/-- Source `onSave`: `validate()` then an alert showing the saved or the
rejected URL, decided by the same render's `isValid`. -/
def onSave (s : FormState) : FormState × Ack :=
  (validate s,
    if isValidState s then .saved s.url else .invalid s.url)

/-- One user event.  Kind selection runs the select's `onChange`
(`setUrlType(k); setUrl('')`) and remounts the sub-form for the new kind,
which decodes the now-empty URL.  Edits run the mounted sub-form's
`onChange`: update the local field state, re-encode, `setUrl`, and
`clearError`.  Edit events for a sub-form that is not mounted cannot
occur and leave the state unchanged. -/
def step (e : Event) (s : FormState) : FormState :=
  match e with
  | .selectKind k =>
    if k = s.urlType then s
    else ⟨k, [], s.error, mountFields k []⟩
  | .editTelephone t =>
    if s.urlType = .telephone then
      { s with fields := .tel t, url := urlFromTelephone t, error := false }
    else s
  | .editEmailField f v =>
    if s.urlType = .email then
      match s.fields with
      | .mail p =>
        let p2 := setEmailField f v p
        { s with fields := .mail p2, url := urlFromEmailParts p2, error := false }
      | .tel _ => s
    else s
  | .blur => validate s
  | .save => (onSave s).1

/-- States reachable from the initial render by user events. -/
inductive Reachable : FormState → Prop where
  | init : Reachable init
  | step (e : Event) {s : FormState} : Reachable s → Reachable (step e s)

end Registry

namespace Registration

/-- Source `isEmailUrlValid`, defined inside `EmailForm` in the
registration-based variant (same body as the registry-based one). -/
def isEmailUrlValid (url : Str) : Bool := !(emailPartsFromUrl url).email.isEmpty

/-- Source `isTelephoneUrlValid`, defined inside `TelephoneForm` in the
registration-based variant. -/
def isTelephoneUrlValid (url : Str) : Bool := hasDigit (telephoneFromUrl url)

/-- The validator a kind's sub-form passes to `setValidator` in its mount
effect. -/
def validatorOf (k : UrlType) : Str → Bool :=
  match k with
  | .email => isEmailUrlValid
  | .telephone => isTelephoneUrlValid

/-- Values the `validator` state variable actually holds at runtime.
`useState` setters treat a function argument as an updater, so the bare
`setValidator(isEmailUrlValid)` and `setValidator(isTelephoneUrlValid)`
calls never store a function: the variable starts as `null` and
thereafter holds the boolean an updater invocation returned. -/
inductive RegValue where
  | null
  | bool (b : Bool)
deriving DecidableEq

/-- JavaScript `ToString` of the values the `validator` variable can
hold, as applied by the `URL` constructor when `isEmailUrlValid`
receives the previous state value in place of a URL string. -/
def regValueToString : RegValue → Str
  | .null => "null".data
  | .bool true => "true".data
  | .bool false => "false".data

/-- Effect of React running `setValidator(isEmailUrlValid)` as an
updater: `isEmailUrlValid` applied to the previous stored value; `new
URL` stringifies it, the parse fails, and the boolean `false` is
stored.  (The telephone counterpart `isTelephoneUrlValid(prev)` runs
`prev.replace`, which throws a TypeError on a null or boolean: the
machine crashes instead; see `step`.) -/
def emailUpdater (prev : RegValue) : RegValue :=
  .bool (isEmailUrlValid (regValueToString prev))

/-- Container state of the registration-based variant: additionally the
`validator` state variable. -/
structure FormState where
  urlType : UrlType
  url : Str
  error : Bool
  validator : RegValue
  fields : Fields
deriving DecidableEq

/-- The machine is either showing the form or has crashed on an uncaught
exception (React unmounts the tree; no further event has any effect). -/
inductive MachineState where
  | running (s : FormState)
  | crashed
deriving DecidableEq

/-- Form state observed by the first user event: the email sub-form has
mounted on the default URL and its mount effect (flushed before any user
event is dispatched) has run `setValidator(isEmailUrlValid)` — as an
updater on the initial `null`, storing the boolean result. -/
def initForm : FormState :=
  ⟨.email, initialUrl, false, emailUpdater .null, mountFields .email initialUrl⟩

def init : MachineState := .running initForm

/-- The render-time `isValid`: `validator ? validator(url) : false`.
`null` and `false` are falsy, so the expression yields `false` without a
call; a stored `true` is truthy and is then called as a function, which
throws a TypeError (`none`).  A function is never stored. -/
def jsIsValid (v : RegValue) (url : Str) : Option Bool :=
  match v with
  | .null => some false
  | .bool false => some false
  | .bool true => none

/-- Source `validate`: `setError(!isValid)`; `none` propagates a
render-time TypeError. -/
def validate (s : FormState) : Option FormState :=
  (jsIsValid s.validator s.url).map fun b => { s with error := !b }

/-- Source `onSave` of the registration-based variant: `validate()` then
an alert showing the saved or the rejected URL, decided by the same
`isValid`. -/
def onSave (s : FormState) : Option (FormState × Ack) :=
  match jsIsValid s.validator s.url with
  | none => none
  | some b => some ({ s with error := !b }, if b then .saved s.url else .invalid s.url)

/-- One user event.  As in the registry-based variant, except for the
`validator` state: selecting telephone remounts `TelephoneForm`, whose
mount effect runs `setValidator(isTelephoneUrlValid)` as an updater on
the stored null/boolean — `prev.replace` throws a TypeError, crashing
the machine before the next event; selecting email remounts `EmailForm`,
whose mount effect stores the boolean `emailUpdater` result.  `blur` and
`save` crash if the render-time `isValid` throws. -/
def step (e : Event) : MachineState → MachineState
  | .crashed => .crashed
  | .running s =>
    match e with
    | .selectKind k =>
      if k = s.urlType then .running s
      else
        match k with
        | .telephone => .crashed
        | .email =>
          .running ⟨.email, [], s.error, emailUpdater s.validator,
            mountFields .email []⟩
    | .editTelephone t =>
      if s.urlType = .telephone then
        .running { s with fields := .tel t, url := urlFromTelephone t,
                          error := false }
      else .running s
    | .editEmailField f v =>
      if s.urlType = .email then
        match s.fields with
        | .mail p =>
          let p2 := setEmailField f v p
          .running { s with fields := .mail p2, url := urlFromEmailParts p2,
                            error := false }
        | .tel _ => .running s
      else .running s
    | .blur =>
      match validate s with
      | none => .crashed
      | some s2 => .running s2
    | .save =>
      match onSave s with
      | none => .crashed
      | some sa => .running sa.1

/-- Machine states reachable from the initial render by user events. -/
inductive Reachable : MachineState → Prop where
  | init : Reachable init
  | step (e : Event) {ms : MachineState} : Reachable ms → Reachable (step e ms)

end Registration

/-! ### Helper lemmas about the telephone codec -/

/-- Spec-side reading of "the string, with the scheme prefix stripped":
removes `tel:` only when it is a prefix.  Stated from the specification's
words, for comparison with the source's `replace`-based stripping. -/
def telSchemeStripped (url : Str) : Str :=
  if "tel:".data.isPrefixOf url then url.drop 4 else url

/-- Printable ASCII characters, the alphabet of the round-trip claim. -/
def printableAscii (c : Char) : Bool := 0x20 ≤ c.toNat && c.toNat ≤ 0x7E

/-- Characters that can occur in the output of the form serializer
`formUrlEncode`. -/
def isEncOutChar (c : Char) : Bool :=
  isAsciiAlphanum c || c == '*' || c == '-' || c == '.' || c == '_' ||
    c == '+' || c == '%'

/-- Characters that can occur in a serialized query: serializer output
plus the literal `=` and `&` of the pair syntax. -/
def isQueryOutChar (c : Char) : Bool := isEncOutChar c || c == '=' || c == '&'

/-- The trailing part of URL cleaning applied to the remainder of a URL
whose scheme part is already clean: trailing trim, then tab and newline
removal. -/
def cleanTail (r : Str) : Str :=
  ((r.reverse.dropWhile isC0OrSpace).reverse).filter fun c => !isTabOrNewline c

theorem hasDigit_cons (c : Char) (l : Str) :
    hasDigit (c :: l) = (isDigitChar c || hasDigit l) := rfl

theorem hasDigit_append (a b : Str) :
    hasDigit (a ++ b) = (hasDigit a || hasDigit b) := by
  simp [hasDigit, List.any_append]

theorem replaceFirstTel_tel_append (t : Str) :
    replaceFirstTel ("tel:".data ++ t) = t := by
  show replaceFirstTel ('t' :: 'e' :: 'l' :: ':' :: t) = t
  rw [replaceFirstTel]
  simp

theorem hasDigit_replaceFirstTel (l : Str) :
    hasDigit (replaceFirstTel l) = hasDigit l := by
  induction l with
  | nil => rfl
  | cons c cs ih =>
    rw [replaceFirstTel]
    split
    · rename_i h
      obtain ⟨hc, ht⟩ := h
      have hcs : cs = ['e', 'l', ':'] ++ cs.drop 3 := by
        conv_lhs => rw [← List.take_append_drop 3 cs]
        rw [ht]
      subst hc
      conv_rhs => rw [hcs]
      simp [hasDigit_cons, hasDigit_append,
        show isDigitChar 't' = false from rfl, show isDigitChar 'e' = false from rfl,
        show isDigitChar 'l' = false from rfl, show isDigitChar ':' = false from rfl]
    · rw [hasDigit_cons, hasDigit_cons, ih]

theorem hasDigit_telSchemeStripped (url : Str) :
    hasDigit (telSchemeStripped url) = hasDigit url := by
  rw [telSchemeStripped]
  split
  · rename_i h
    obtain ⟨t, rfl⟩ := List.isPrefixOf_iff_prefix.mp h
    have h4 : ("tel:".data ++ t).drop 4 = t := by
      have := List.drop_left "tel:".data t
      simpa using this
    rw [h4, hasDigit_append]
    simp [show hasDigit "tel:".data = false from rfl]
  · rfl

/-- In every reachable non-crashed state of the registration-based
variant, the `validator` state variable holds the boolean `false`: the
initial mount stores `isEmailUrlValid("null") = false`, the only
reachable remounts are email remounts, which store
`isEmailUrlValid("false") = false`, and a telephone remount crashes. -/
theorem reachable_running_validator :
    ∀ ms : Registration.MachineState, Registration.Reachable ms →
      ∀ s : Registration.FormState, ms = .running s →
        s.validator = Registration.RegValue.bool false := by
  intro ms h
  induction h with
  | init =>
    intro s hs
    injection hs with h2
    subst h2
    rfl
  | step e h ih =>
    rename_i ms0
    intro s hs
    cases ms0 with
    | crashed => exact Registration.MachineState.noConfusion hs
    | running s0 =>
      obtain ⟨ut, u, er, va, fi⟩ := s0
      have hva : va = Registration.RegValue.bool false :=
        ih ⟨ut, u, er, va, fi⟩ rfl
      subst hva
      cases e with
      | selectKind k =>
        cases k <;> cases ut <;>
          first
          | exact Registration.MachineState.noConfusion hs
          | (injection hs with h2; subst h2; rfl)
      | editTelephone t =>
        cases ut <;> (injection hs with h2; subst h2; rfl)
      | editEmailField f v =>
        cases ut <;> cases fi <;> (injection hs with h2; subst h2; rfl)
      | blur =>
        injection hs with h2
        subst h2
        rfl
      | save =>
        injection hs with h2
        subst h2
        rfl

/-- C1: the claim states the registration invariant the design intends —
blur/save validation always evaluates the active kind's validator on the
current URL, and after a kind switch the new kind's validator is the
registered one.  The code breaks it: the bare `setValidator(...)` calls
run as state updaters, so the `validator` variable holds the boolean
`isEmailUrlValid(null) = false` rather than a validator.  Hence the
default URL — which the active email validator accepts — is acknowledged
as invalid by save and flagged as erroneous by blur, and the first
switch to the telephone kind crashes in that sub-form's mount effect
(`prev.replace` TypeError) instead of registering its validator. -/
theorem registration_validator_bug_c1 :
    Registration.isEmailUrlValid initialUrl = true ∧
    Registration.initForm.validator = Registration.RegValue.bool false ∧
    Registration.onSave Registration.initForm =
      some ({ Registration.initForm with error := true }, Ack.invalid initialUrl) ∧
    Registration.step .blur Registration.init =
      .running { Registration.initForm with error := true } ∧
    Registration.step (.selectKind .telephone) Registration.init =
      Registration.MachineState.crashed :=
  ⟨rfl, rfl, rfl, rfl, rfl⟩

/-- C2 counterexample: in the registry-based variant, from the reachable
state obtained by selecting telephone from the initial state and
blurring the empty input (error flag true), selecting the email kind
leaves the error flag true, though the claim demands it be reset to
false; in the registration-based variant the very first kind switch
crashes in the telephone sub-form's mount effect, so no transition that
resets anything completes at all. -/
theorem select_kind_error_not_reset_cex :
    (Registry.step (.selectKind .email)
      (Registry.step .blur
        (Registry.step (.selectKind .telephone) Registry.init))).error = true ∧
    Registration.step (.selectKind .telephone) Registration.init =
      Registration.MachineState.crashed :=
  ⟨rfl, rfl⟩

/-- C2 amended: in the registry-based variant, select-kind(k) for every
kind `k` other than the selected one (the select control fires onChange
only on an actual change) resets the canonical URL to the empty string
and switches the active codec/validator/renderer to kind `k`, but
leaves the error flag unchanged rather than resetting it to false.  In
the registration-based variant the only kind switch the program can
reach — the active kind is always email, so only telephone can be newly
selected — crashes in the telephone sub-form's mount effect (the
updater invocation `isTelephoneUrlValid(prev)` throws a TypeError on
the stored null/boolean), completing no reset of any kind. -/
theorem select_kind_amended :
    (∀ (s : Registry.FormState) (k : UrlType), k ≠ s.urlType →
      Registry.step (.selectKind k) s = ⟨k, [], s.error, mountFields k []⟩) ∧
    (∀ s : Registration.FormState, s.urlType = .email →
      Registration.step (.selectKind .telephone) (.running s) =
        Registration.MachineState.crashed) := by
  constructor
  · intro s k hk
    rw [Registry.step, if_neg hk]
  · intro s hse
    obtain ⟨ut, u, er, va, fi⟩ := s
    cases hse
    rfl

/-- C2 amended witness: switching the initial state to the telephone
kind in both variants. -/
theorem select_kind_amended_witness :
    Registry.step (.selectKind .telephone) Registry.init =
      ⟨.telephone, [], false, mountFields .telephone []⟩ ∧
    Registration.step (.selectKind .telephone)
        (.running Registration.initForm) =
      Registration.MachineState.crashed :=
  ⟨select_kind_amended.1 Registry.init .telephone (by decide),
    select_kind_amended.2 Registration.initForm rfl⟩

/-- C3: the telephone validator returns true exactly when the URL with
the scheme prefix stripped contains an ASCII digit; in particular it
accepts `tel:` followed by a non-empty digit string and rejects `tel:`
followed by a digit-free string.  (Stated for the validator of the
registration-based variant; the registry-based one is the same function
by `variant_validators_agree_c10`.) -/
theorem telephone_validator_characterization_c3 :
    (∀ url : Str,
      Registration.isTelephoneUrlValid url = hasDigit (telSchemeStripped url)) ∧
    (∀ d : Str, d ≠ [] → (∀ c ∈ d, isDigitChar c = true) →
      Registration.isTelephoneUrlValid ("tel:".data ++ d) = true) ∧
    (∀ s : Str, (∀ c ∈ s, isDigitChar c = false) →
      Registration.isTelephoneUrlValid ("tel:".data ++ s) = false) := by
  refine ⟨?_, ?_, ?_⟩
  · intro url
    rw [Registration.isTelephoneUrlValid, telephoneFromUrl,
      hasDigit_replaceFirstTel, hasDigit_telSchemeStripped]
  · intro d hne hdig
    rw [Registration.isTelephoneUrlValid, telephoneFromUrl,
      replaceFirstTel_tel_append]
    obtain ⟨c, cs, rfl⟩ := List.exists_cons_of_ne_nil hne
    rw [hasDigit_cons, hdig c (by simp)]
    rfl
  · intro s hnd
    rw [Registration.isTelephoneUrlValid, telephoneFromUrl,
      replaceFirstTel_tel_append]
    rw [hasDigit, List.any_eq_false]
    intro c hc
    simp [hnd c hc]

/-- C3 witness: the characterization applied to `tel:12a`, `tel:0411` and
`tel:abc`. -/
theorem telephone_validator_characterization_c3_witness :
    Registration.isTelephoneUrlValid "tel:12a".data =
      hasDigit (telSchemeStripped "tel:12a".data) ∧
    Registration.isTelephoneUrlValid "tel:0411".data = true ∧
    Registration.isTelephoneUrlValid "tel:abc".data = false :=
  ⟨telephone_validator_characterization_c3.1 "tel:12a".data,
    telephone_validator_characterization_c3.2.1 "0411".data (by decide)
      (by decide),
    telephone_validator_characterization_c3.2.2 "abc".data (by decide)⟩

/-- C6 counterexample: in the registration-based variant the initial
URL is accepted by the active (email) kind's validator, yet save
surfaces the failure acknowledgment and sets the error flag: validity
is computed from the stored `validator` state — the boolean `false` —
and not from the active kind's validator, while the claim requires a
success acknowledgment whenever the URL is valid for the active kind. -/
theorem save_ack_cex_c6 :
    Registration.initForm.urlType = UrlType.email ∧
    Registration.validatorOf Registration.initForm.urlType
      Registration.initForm.url = true ∧
    Registration.onSave Registration.initForm =
      some ({ Registration.initForm with error := true },
        Ack.invalid Registration.initForm.url) :=
  ⟨rfl, rfl, rfl⟩

/-- C6 amended: in both variants save never mutates the URL, the kind or
the sub-form field state, and its acknowledgment carries the current
URL.  In the registry-based variant the acknowledgment is a success
exactly when the active kind's validator accepts the URL, and on
failure the error flag is set (the flag becomes the negation of the
validity).  In the registration-based variant the render-time validity
is computed from the stored `validator` state, which in every reachable
state is the boolean `false`: save always surfaces the failure
acknowledgment and sets the error flag, regardless of the active kind's
validator. -/
theorem save_preserves_state_c6 :
    (∀ s : Registry.FormState,
      (Registry.onSave s).1.url = s.url ∧
      (Registry.onSave s).1.fields = s.fields ∧
      (Registry.onSave s).1.urlType = s.urlType ∧
      (Registry.onSave s).1.error = !Registry.isValidState s ∧
      ((Registry.onSave s).2 = Ack.saved s.url ↔ Registry.isValidState s = true) ∧
      ((Registry.onSave s).2 = Ack.invalid s.url ↔
        Registry.isValidState s = false)) ∧
    (∀ s : Registration.FormState,
      Registration.Reachable (.running s) →
      Registration.onSave s =
        some ({ s with error := true }, Ack.invalid s.url) ∧
      Registration.step .save (.running s) =
        .running { s with error := true }) := by
  constructor
  · intro s
    refine ⟨rfl, rfl, rfl, rfl, ?_, ?_⟩ <;>
      · rw [Registry.onSave]
        cases hb : Registry.isValidState s <;> simp [hb]
  · intro s hr
    have hv := reachable_running_validator _ hr s rfl
    have hos : Registration.onSave s =
        some ({ s with error := true }, Ack.invalid s.url) := by
      rw [Registration.onSave, hv]
      rfl
    refine ⟨hos, ?_⟩
    simp only [Registration.step, hos]

/-- C6 amended witness: save in the initial state of the
registration-based variant, where the URL and field state survive and
the failure acknowledgment carries the current URL. -/
theorem save_preserves_state_c6_witness :
    Registration.onSave Registration.initForm =
      some ({ Registration.initForm with error := true },
        Ack.invalid Registration.initForm.url) ∧
    Registration.step .save (.running Registration.initForm) =
      .running { Registration.initForm with error := true } :=
  save_preserves_state_c6.2 Registration.initForm Registration.Reachable.init

/-- C7: in both variants, every change event on an input of the mounted
sub-form sets the container URL to the re-encoding of the updated field
set and clears the error flag, performing no validation. -/
theorem edit_transition_c7 :
    (∀ (s : Registry.FormState) (t : Str), s.urlType = .telephone →
      Registry.step (.editTelephone t) s =
        { s with fields := .tel t, url := urlFromTelephone t, error := false }) ∧
    (∀ (s : Registry.FormState) (f : EmailField) (v : Str) (p : EmailParts),
      s.urlType = .email → s.fields = .mail p →
      Registry.step (.editEmailField f v) s =
        { s with fields := .mail (setEmailField f v p),
                 url := urlFromEmailParts (setEmailField f v p),
                 error := false }) ∧
    (∀ (s : Registration.FormState) (t : Str), s.urlType = .telephone →
      Registration.step (.editTelephone t) (.running s) =
        .running { s with fields := .tel t, url := urlFromTelephone t,
                          error := false }) ∧
    (∀ (s : Registration.FormState) (f : EmailField) (v : Str) (p : EmailParts),
      s.urlType = .email → s.fields = .mail p →
      Registration.step (.editEmailField f v) (.running s) =
        .running { s with fields := .mail (setEmailField f v p),
                          url := urlFromEmailParts (setEmailField f v p),
                          error := false }) := by
  refine ⟨?_, ?_, ?_, ?_⟩
  · intro s t ht
    rw [Registry.step, if_pos ht]
  · intro s f v p ht hf
    rw [Registry.step, if_pos ht, hf]
  · intro s t ht
    simp only [Registration.step]
    rw [if_pos ht]
  · intro s f v p ht hf
    simp only [Registration.step]
    rw [if_pos ht, hf]

/-- C7 witness: typing `a@b.com` into the email address input from a
state with the error flag set clears the error and re-encodes the URL,
and likewise for the telephone input. -/
theorem edit_transition_c7_witness :
    Registry.step (.editTelephone "abc".data)
        ⟨.telephone, [], true, .tel []⟩ =
      ⟨.telephone, urlFromTelephone "abc".data, false, .tel "abc".data⟩ ∧
    Registry.step (.editEmailField .email "a@b.com".data)
        ⟨.email, [], true, .mail ⟨[], [], []⟩⟩ =
      ⟨.email, urlFromEmailParts ⟨"a@b.com".data, [], []⟩, false,
        .mail ⟨"a@b.com".data, [], []⟩⟩ ∧
    Registration.step (.editTelephone "abc".data)
        (.running ⟨.telephone, [], true, .bool false, .tel []⟩) =
      .running ⟨.telephone, urlFromTelephone "abc".data, false, .bool false,
        .tel "abc".data⟩ ∧
    Registration.step (.editEmailField .email "a@b.com".data)
        (.running ⟨.email, [], true, .bool false, .mail ⟨[], [], []⟩⟩) =
      .running ⟨.email, urlFromEmailParts ⟨"a@b.com".data, [], []⟩, false,
        .bool false, .mail ⟨"a@b.com".data, [], []⟩⟩ :=
  ⟨edit_transition_c7.1 ⟨.telephone, [], true, .tel []⟩ "abc".data rfl,
    edit_transition_c7.2.1 ⟨.email, [], true, .mail ⟨[], [], []⟩⟩ .email
      "a@b.com".data ⟨[], [], []⟩ rfl rfl,
    edit_transition_c7.2.2.1
      ⟨.telephone, [], true, .bool false, .tel []⟩ "abc".data rfl,
    edit_transition_c7.2.2.2
      ⟨.email, [], true, .bool false, .mail ⟨[], [], []⟩⟩
      .email "a@b.com".data ⟨[], [], []⟩ rfl rfl⟩

/-- C8 counterexample: in the registration-based variant's initial state
the active kind's validator accepts the current URL — so the claim
requires blur to clear the error flag — but blur sets it to true: the
render-time validity is computed from the stored `validator` state, the
boolean `false`, not from the active kind's validator. -/
theorem blur_error_cex_c8 :
    Registration.validatorOf Registration.initForm.urlType
      Registration.initForm.url = true ∧
    Registration.initForm.error = false ∧
    Registration.step .blur Registration.init =
      .running { Registration.initForm with error := true } :=
  ⟨rfl, rfl, rfl⟩

/-- C8 amended: in the registry-based variant blur and save set the
error flag to exactly the negation of the active kind's validator
applied to the current URL and change nothing else.  In the
registration-based variant they set the error flag to the negation of
the falsy stored `validator` state — that is, constantly to true in
every reachable state, regardless of the active kind's validator — and
change nothing else. -/
theorem blur_save_validation_c8 :
    (∀ s : Registry.FormState,
      Registry.step .blur s =
        { s with error := !Registry.subFormIsValid s.urlType s.url } ∧
      Registry.step .save s =
        { s with error := !Registry.subFormIsValid s.urlType s.url }) ∧
    (∀ s : Registration.FormState,
      Registration.Reachable (.running s) →
      Registration.step .blur (.running s) = .running { s with error := true } ∧
      Registration.step .save (.running s) = .running { s with error := true }) := by
  constructor
  · intro s
    exact ⟨rfl, rfl⟩
  · intro s hr
    have hv := reachable_running_validator _ hr s rfl
    have hval : Registration.validate s = some { s with error := true } := by
      rw [Registration.validate, hv]
      rfl
    have hos : Registration.onSave s =
        some ({ s with error := true }, Ack.invalid s.url) := by
      rw [Registration.onSave, hv]
      rfl
    constructor
    · simp only [Registration.step, hval]
    · simp only [Registration.step, hos]

/-- C8 amended witness: blur and save in the initial state of the
registration-based variant. -/
theorem blur_save_validation_c8_witness :
    Registration.step .blur (.running Registration.initForm) =
      .running { Registration.initForm with error := true } ∧
    Registration.step .save (.running Registration.initForm) =
      .running { Registration.initForm with error := true } :=
  blur_save_validation_c8.2 Registration.initForm Registration.Reachable.init

/-! ### Character-level lemmas about the form serializer -/

theorem toNat_ofNat_of_valid {n : Nat} (h : n < 0xD800) :
    (Char.ofNat n).toNat = n := by
  have hv : n.isValidChar := Or.inl (by omega)
  rw [Char.ofNat, dif_pos hv]
  rfl

theorem char_toNat_lt (c : Char) : c.toNat < 0x110000 := by
  rcases c.valid with h | h
  · exact Nat.lt_trans h (by omega)
  · exact h.2

theorem hexVal_hexUpper {n : Nat} (h : n < 16) : hexVal (hexUpper n) = some n := by
  rw [hexUpper]
  split
  · rw [hexVal]
    rw [toNat_ofNat_of_valid (show 48 + n < 0xD800 by omega)]
    rw [if_pos (by omega)]
    congr 1
    omega
  · rw [hexVal]
    rw [toNat_ofNat_of_valid (show 55 + n < 0xD800 by omega)]
    rw [if_neg (by omega), if_pos (by omega)]
    congr 1
    omega

theorem isEncOutChar_hexUpper {n : Nat} (h : n < 16) :
    isEncOutChar (hexUpper n) = true := by
  have hA : isAsciiAlphanum (hexUpper n) = true := by
    rw [hexUpper]
    split
    · rw [isAsciiAlphanum]
      rw [toNat_ofNat_of_valid (show 48 + n < 0xD800 by omega)]
      simp only [Bool.or_eq_true, Bool.and_eq_true, decide_eq_true_eq]
      omega
    · rw [isAsciiAlphanum]
      rw [toNat_ofNat_of_valid (show 55 + n < 0xD800 by omega)]
      simp only [Bool.or_eq_true, Bool.and_eq_true, decide_eq_true_eq]
      omega
  rw [isEncOutChar, hA]
  rfl

theorem utf8EncodeChar_lt_256 {c : Char} : ∀ b ∈ utf8EncodeChar c, b < 256 := by
  intro b hb
  have hc := char_toNat_lt c
  rw [utf8EncodeChar] at hb
  split at hb
  · simp only [List.mem_singleton] at hb
    omega
  · split at hb
    · simp only [List.mem_cons, List.mem_singleton, List.not_mem_nil, or_false] at hb
      rcases hb with hb | hb <;> omega
    · split at hb
      · simp only [List.mem_cons, List.mem_singleton, List.not_mem_nil, or_false] at hb
        rcases hb with hb | hb | hb <;> omega
      · simp only [List.mem_cons, List.mem_singleton, List.not_mem_nil, or_false] at hb
        rcases hb with hb | hb | hb | hb <;> omega

theorem utf8EncodeChar_ascii {c : Char} (h : c.toNat < 0x80) :
    utf8EncodeChar c = [c.toNat] := by
  rw [utf8EncodeChar]
  simp [h]

theorem mem_pctByte_encOut {b : Nat} (hb : b < 256) :
    ∀ c ∈ pctByte b, isEncOutChar c = true := by
  intro c hc
  rw [pctByte] at hc
  simp only [List.mem_cons, List.mem_singleton, List.not_mem_nil, or_false] at hc
  rcases hc with rfl | rfl | rfl
  · decide
  · exact isEncOutChar_hexUpper (by omega)
  · exact isEncOutChar_hexUpper (by omega)

theorem mem_encChar_encOut {c c' : Char} (h : c' ∈ encChar c) :
    isEncOutChar c' = true := by
  rw [encChar] at h
  split at h
  · rename_i hsafe
    simp only [List.mem_singleton] at h
    subst h
    rw [isEncOutChar]
    rw [isFormSafe] at hsafe
    simp only [Bool.or_eq_true] at hsafe ⊢
    tauto
  · split at h
    · simp only [List.mem_singleton] at h
      subst h
      decide
    · simp only [List.mem_flatMap] at h
      obtain ⟨b, hb, hc'⟩ := h
      exact mem_pctByte_encOut (utf8EncodeChar_lt_256 b hb) c' hc'

theorem encOut_toNat_facts {c : Char} (h : isEncOutChar c = true) :
    0x20 < c.toNat ∧ c.toNat ≠ 0x3F ∧ c.toNat ≠ 0x23 ∧ c.toNat ≠ 0x26 ∧
      c.toNat ≠ 0x3D := by
  rw [isEncOutChar, isAsciiAlphanum] at h
  simp only [Bool.or_eq_true, Bool.and_eq_true, decide_eq_true_eq, beq_iff_eq] at h
  rcases h with (((((((h | h) | h) | h) | h) | h) | h) | h) | h
  all_goals first | omega | (subst h; decide)

theorem queryOut_toNat_facts {c : Char} (h : isQueryOutChar c = true) :
    0x20 < c.toNat ∧ c.toNat ≠ 0x3F ∧ c.toNat ≠ 0x23 := by
  rw [isQueryOutChar] at h
  simp only [Bool.or_eq_true, beq_iff_eq] at h
  rcases h with (h | h) | h
  · have hf := encOut_toNat_facts h
    exact ⟨hf.1, hf.2.1, hf.2.2.1⟩
  · subst h
    decide
  · subst h
    decide

theorem ne_of_toNat_ne {c d : Char} (h : c.toNat ≠ d.toNat) : c ≠ d :=
  fun he => h (he ▸ rfl)

theorem beq_false_of_toNat_ne {c d : Char} (h : c.toNat ≠ d.toNat) :
    (c == d) = false := by
  rw [beq_eq_false_iff_ne]
  exact ne_of_toNat_ne h

theorem mem_formUrlEncode_encOut {s : Str} :
    ∀ c ∈ formUrlEncode s, isEncOutChar c = true := by
  intro c hc
  rw [formUrlEncode] at hc
  simp only [List.mem_flatMap] at hc
  obtain ⟨c0, _, hc⟩ := hc
  exact mem_encChar_encOut hc

theorem mem_serializeQuery_queryOut {s b : Str} :
    ∀ c ∈ serializeQuery s b, isQueryOutChar c = true := by
  intro c hc
  have hlit1 : ∀ x ∈ "subject=".data, isQueryOutChar x = true := by decide
  have hlit2 : ∀ x ∈ "&body=".data, isQueryOutChar x = true := by decide
  rw [serializeQuery] at hc
  simp only [List.append_assoc, List.mem_append] at hc
  rcases hc with hc | hc | hc | hc
  · exact hlit1 c hc
  · rw [isQueryOutChar, mem_formUrlEncode_encOut c hc]
    rfl
  · exact hlit2 c hc
  · rw [isQueryOutChar, mem_formUrlEncode_encOut c hc]
    rfl

/-! ### Structure of the URL parse of serializer output -/

theorem takeWhile_eq_self_of_all {p : Char → Bool} {l : Str}
    (h : ∀ c ∈ l, p c = true) : l.takeWhile p = l := by
  induction l with
  | nil => rfl
  | cons c cs ih =>
    rw [List.takeWhile_cons_of_pos (by rw [h c (List.mem_cons_self c cs)])]
    rw [ih (fun d hd => h d (List.mem_cons_of_mem _ hd))]

theorem trimTrail_eq_self {l : Str}
    (h : ∀ c, l.getLast? = some c → isC0OrSpace c = false) :
    (l.reverse.dropWhile isC0OrSpace).reverse = l := by
  cases hl : l.reverse with
  | nil =>
    have := List.reverse_eq_nil_iff.mp hl
    subst this
    rfl
  | cons x t =>
    have hx : l.getLast? = some x := by
      rw [← List.head?_reverse, hl]
      rfl
    rw [List.dropWhile_cons_of_neg (by simp [h x hx]), ← hl,
      List.reverse_reverse]

theorem getLast?_append_right {A B : Str} (hB : B.getLast?.isSome) :
    (A ++ B).getLast? = B.getLast? := by
  rw [List.getLast?_append]
  obtain ⟨c, hc⟩ := Option.isSome_iff_exists.mp hB
  rw [hc]
  rfl

theorem isC0OrSpace_false_of_gt {c : Char} (h : 0x20 < c.toNat) :
    isC0OrSpace c = false := by
  rw [isC0OrSpace]
  simp only [decide_eq_false_iff_not]
  omega

theorem isTabOrNewline_false_of_gt {c : Char} (h : 0x20 < c.toNat) :
    isTabOrNewline c = false := by
  rw [isTabOrNewline]
  simp only [Bool.or_eq_false_iff, beq_eq_false_iff_ne]
  refine ⟨⟨ne_of_toNat_ne ?_, ne_of_toNat_ne ?_⟩, ne_of_toNat_ne ?_⟩
  · show c.toNat ≠ 9
    omega
  · show c.toNat ≠ 10
    omega
  · show c.toNat ≠ 13
    omega

theorem serializeQuery_getLast_ok (s b : Str) :
    ∀ c, (serializeQuery s b).getLast? = some c → isC0OrSpace c = false := by
  intro c hc
  rcases List.eq_nil_or_concat (formUrlEncode b) with hb | ⟨L, x, hb⟩
  · rw [serializeQuery, hb, List.append_nil] at hc
    have h1 : ("&body=".data : Str).getLast? = some '=' := rfl
    simp only [List.getLast?_append, h1, Option.or_some, Option.some.injEq] at hc
    subst hc
    decide
  · rw [List.concat_eq_append] at hb
    have hx : isEncOutChar x = true := by
      apply mem_formUrlEncode_encOut
      rw [hb]
      simp
    rw [serializeQuery, hb] at hc
    simp only [List.getLast?_append, List.getLast?_singleton, Option.or_some,
      Option.some.injEq] at hc
    subst hc
    exact isC0OrSpace_false_of_gt (encOut_toNat_facts hx).1

theorem serializeQuery_pathEnd_false (s b : Str) :
    ∀ c ∈ serializeQuery s b, isPathEnd c = false := by
  intro c hc
  have hf := queryOut_toNat_facts (mem_serializeQuery_queryOut c hc)
  rw [isPathEnd, beq_false_of_toNat_ne (show c.toNat ≠ ('?').toNat from hf.2.1),
    beq_false_of_toNat_ne (show c.toNat ≠ ('#').toNat from hf.2.2)]
  rfl

theorem serializeQuery_hash_false (s b : Str) :
    ∀ c ∈ serializeQuery s b, (c == '#') = false := by
  intro c hc
  have hf := queryOut_toNat_facts (mem_serializeQuery_queryOut c hc)
  exact beq_false_of_toNat_ne (show c.toNat ≠ ('#').toNat from hf.2.2)

theorem serializeQuery_not_tabnl (s b : Str) :
    ∀ c ∈ serializeQuery s b, isTabOrNewline c = false := by
  intro c hc
  have hf := queryOut_toNat_facts (mem_serializeQuery_queryOut c hc)
  exact isTabOrNewline_false_of_gt hf.1

theorem trimTrail_append {A r : Str}
    (hA : ∀ c, A.getLast? = some c → isC0OrSpace c = false) :
    ((A ++ r).reverse.dropWhile isC0OrSpace).reverse =
      A ++ (r.reverse.dropWhile isC0OrSpace).reverse := by
  rw [List.reverse_append, List.dropWhile_append]
  split
  · rename_i hemp
    have hre : r.reverse.dropWhile isC0OrSpace = [] := by
      simpa using hemp
    rw [hre, List.reverse_nil, List.append_nil]
    exact trimTrail_eq_self hA
  · rw [List.reverse_append, List.reverse_reverse]

theorem cleanUrl_scheme_append {A r : Str}
    (hA1 : ∃ c t, A = c :: t ∧ isC0OrSpace c = false)
    (hA2 : ∀ c, A.getLast? = some c → isC0OrSpace c = false)
    (hA3 : A.filter (fun c => !isTabOrNewline c) = A) :
    cleanUrl (A ++ r) = A ++ cleanTail r := by
  obtain ⟨c, t, rfl, hc⟩ := hA1
  rw [cleanUrl]
  rw [show ((c :: t) ++ r : Str) = c :: (t ++ r) from rfl]
  rw [List.dropWhile_cons_of_neg (by simp [hc])]
  rw [← show ((c :: t) ++ r : Str) = c :: (t ++ r) from rfl]
  rw [trimTrail_append hA2, List.filter_append, hA3, cleanTail]

theorem mailto_head_ok :
    ∃ c t, ("mailto:".data : Str) = c :: t ∧ isC0OrSpace c = false :=
  ⟨'m', "ailto:".data, rfl, by decide⟩

theorem mailto_last_ok :
    ∀ c, ("mailto:".data : Str).getLast? = some c → isC0OrSpace c = false := by
  intro c hc
  have h1 : ("mailto:".data : Str).getLast? = some ':' := rfl
  rw [h1, Option.some.injEq] at hc
  subst hc
  decide

theorem tel_head_ok :
    ∃ c t, ("tel:".data : Str) = c :: t ∧ isC0OrSpace c = false :=
  ⟨'t', "el:".data, rfl, by decide⟩

theorem tel_last_ok :
    ∀ c, ("tel:".data : Str).getLast? = some c → isC0OrSpace c = false := by
  intro c hc
  have h1 : ("tel:".data : Str).getLast? = some ':' := rfl
  rw [h1, Option.some.injEq] at hc
  subst hc
  decide

theorem parseScheme_mailto (r : Str) :
    parseScheme ("mailto:".data ++ r) = some ("mailto".data, r) := rfl

theorem parseScheme_tel (r : Str) :
    parseScheme ("tel:".data ++ r) = some ("tel".data, r) := rfl

theorem cleanTail_query_append (e s b : Str) :
    cleanTail (e ++ '?' :: serializeQuery s b) =
      (e.filter fun c => !isTabOrNewline c) ++ '?' :: serializeQuery s b := by
  have hlast : ∀ c, (e ++ '?' :: serializeQuery s b).getLast? = some c →
      isC0OrSpace c = false := by
    intro c hc
    rw [show ('?' :: serializeQuery s b : Str) = ['?'] ++ serializeQuery s b
      from rfl] at hc
    rw [List.getLast?_append, List.getLast?_append] at hc
    cases hqs : (serializeQuery s b).getLast? with
    | none =>
      rw [hqs] at hc
      simp only [Option.none_or, List.getLast?_singleton, Option.or_some,
        Option.some.injEq] at hc
      subst hc
      decide
    | some d =>
      rw [hqs] at hc
      simp only [Option.or_some, Option.some.injEq] at hc
      subst hc
      exact serializeQuery_getLast_ok s b _ hqs
  rw [cleanTail, trimTrail_eq_self hlast, List.filter_append]
  rw [List.filter_cons_of_pos (by decide)]
  rw [show (serializeQuery s b).filter (fun c => !isTabOrNewline c) =
      serializeQuery s b from List.filter_eq_self.mpr
    (fun a ha => by rw [serializeQuery_not_tabnl s b a ha]; rfl)]

theorem cleanUrl_urlFromEmailParts (p : EmailParts) :
    cleanUrl (urlFromEmailParts p) =
      "mailto:".data ++ ((p.email.filter fun c => !isTabOrNewline c) ++
        '?' :: serializeQuery p.subject p.body) := by
  rw [urlFromEmailParts, List.append_assoc,
    cleanUrl_scheme_append mailto_head_ok mailto_last_ok (by decide),
    cleanTail_query_append]

theorem slashslash_of_append {e qs : Str}
    (h : ['/', '/'] <+: (e ++ '?' :: qs)) : ['/', '/'] <+: e := by
  obtain ⟨u, hu⟩ := h
  rcases e with _ | ⟨c1, e1⟩
  · exfalso
    simp only [List.nil_append, List.cons_append] at hu
    injection hu with h1 _
    exact absurd h1 (by decide)
  rcases e1 with _ | ⟨c2, e12⟩
  · exfalso
    simp only [List.cons_append, List.nil_append] at hu
    injection hu with h1 hu2
    injection hu2 with h2 _
    exact absurd h2 (by decide)
  · simp only [List.cons_append] at hu
    injection hu with h1 hu2
    injection hu2 with h2 _
    subst h1
    subst h2
    exact ⟨e12, rfl⟩

theorem parseAfterScheme_not_authority {r : Str} (h : ¬ (['/', '/'] <+: r)) :
    parseAfterScheme r =
      some (r.takeWhile (fun c => !isPathEnd c),
        extractSearch (r.dropWhile (fun c => !isPathEnd c))) := by
  unfold parseAfterScheme
  split
  · rename_i r2
    exact absurd ⟨r2, rfl⟩ h
  · rfl

theorem extractSearch_query {qs : Str} (hq : ∀ c ∈ qs, (c == '#') = false) :
    extractSearch ('?' :: qs) = qs := by
  have h1 : extractSearch ('?' :: qs) = qs.takeWhile fun c => !(c == '#') := rfl
  rw [h1]
  exact takeWhile_eq_self_of_all (fun c hc => by rw [hq c hc]; rfl)

theorem parseAfterScheme_opaque {e qs : Str}
    (hePath : ∀ c ∈ e, isPathEnd c = false)
    (heSlash : ¬ (['/', '/'] <+: e))
    (hqsHash : ∀ c ∈ qs, (c == '#') = false) :
    parseAfterScheme (e ++ '?' :: qs) = some (e, qs) := by
  have hslash2 : ¬ (['/', '/'] <+: (e ++ '?' :: qs)) :=
    fun hpre => heSlash (slashslash_of_append hpre)
  rw [parseAfterScheme_not_authority hslash2]
  have h1 : (e ++ '?' :: qs).takeWhile (fun c => !isPathEnd c) = e := by
    rw [List.takeWhile_append_of_pos (fun a ha => by rw [hePath a ha]; rfl)]
    rw [List.takeWhile_cons_of_neg (by decide), List.append_nil]
  have h2 : (e ++ '?' :: qs).dropWhile (fun c => !isPathEnd c) = '?' :: qs := by
    rw [List.dropWhile_append_of_pos (fun a ha => by rw [hePath a ha]; rfl)]
    rw [List.dropWhile_cons_of_neg (by decide)]
  rw [h1, h2, extractSearch_query hqsHash]

theorem parseAfterScheme_path_cons {h0 : Char} {t qs : Str}
    (hh : isPathEnd h0 = false)
    (hs : ¬ (['/', '/'] <+: (h0 :: t))) :
    parseAfterScheme ((h0 :: t) ++ '?' :: qs) =
      some (h0 :: (t ++ '?' :: qs).takeWhile (fun c => !isPathEnd c),
        extractSearch ((h0 :: (t ++ '?' :: qs)).dropWhile
          fun c => !isPathEnd c)) := by
  have hslash2 : ¬ (['/', '/'] <+: ((h0 :: t) ++ '?' :: qs)) :=
    fun hpre => hs (slashslash_of_append hpre)
  rw [parseAfterScheme_not_authority hslash2]
  rw [show ((h0 :: t) ++ '?' :: qs : Str) = h0 :: (t ++ '?' :: qs) from rfl]
  rw [List.takeWhile_cons_of_pos (by rw [hh]; rfl)]

theorem parseUrl_urlFromEmailParts (p : EmailParts) :
    parseUrl (urlFromEmailParts p) =
      (parseAfterScheme ((p.email.filter fun c => !isTabOrNewline c) ++
        '?' :: serializeQuery p.subject p.body)).map
        fun pq => ⟨"mailto".data, pq.1, pq.2⟩ := by
  rw [parseUrl, cleanUrl_urlFromEmailParts, parseScheme_mailto]

/-! ### `URLSearchParams` access on serialized queries, and the decode
round-trip -/

theorem mem_formUrlEncode_amp_false {v : Str} :
    ∀ c ∈ formUrlEncode v, (c == '&') = false := by
  intro c hc
  have hf := encOut_toNat_facts (mem_formUrlEncode_encOut c hc)
  exact beq_false_of_toNat_ne (show c.toNat ≠ ('&').toNat from hf.2.2.2.1)

theorem splitAmp_no_amp {B : Str} (h : ∀ c ∈ B, (c == '&') = false) :
    splitAmp B = [B] := by
  induction B with
  | nil => rfl
  | cons c cs ih =>
    have hc : ¬ c = '&' := by simpa using h c (by simp)
    rw [splitAmp, if_neg hc, ih (fun d hd => h d (List.mem_cons_of_mem _ hd))]

theorem splitAmp_append {A B : Str} (h : ∀ c ∈ A, (c == '&') = false) :
    splitAmp (A ++ '&' :: B) = A :: splitAmp B := by
  induction A with
  | nil => rw [List.nil_append, splitAmp, if_pos rfl]
  | cons c cs ih =>
    have hc : ¬ c = '&' := by simpa using h c (by simp)
    rw [List.cons_append, splitAmp, if_neg hc,
      ih (fun d hd => h d (List.mem_cons_of_mem _ hd))]

theorem splitAmp_serializeQuery (s b : Str) :
    splitAmp (serializeQuery s b) =
      ["subject=".data ++ formUrlEncode s, "body=".data ++ formUrlEncode b] := by
  have hshape : serializeQuery s b =
      ("subject=".data ++ formUrlEncode s) ++
        '&' :: ("body=".data ++ formUrlEncode b) := by
    rw [serializeQuery, List.append_assoc, List.append_assoc]
    rfl
  have hA : ∀ c ∈ "subject=".data ++ formUrlEncode s, (c == '&') = false := by
    intro c hc
    rcases List.mem_append.mp hc with hc | hc
    · have hdec : ∀ x ∈ "subject=".data, (x == '&') = false := by decide
      exact hdec c hc
    · exact mem_formUrlEncode_amp_false c hc
  have hB : ∀ c ∈ "body=".data ++ formUrlEncode b, (c == '&') = false := by
    intro c hc
    rcases List.mem_append.mp hc with hc | hc
    · have hdec : ∀ x ∈ "body=".data, (x == '&') = false := by decide
      exact hdec c hc
    · exact mem_formUrlEncode_amp_false c hc
  rw [hshape, splitAmp_append hA, splitAmp_no_amp hB]

theorem pairOf_subject (v : Str) :
    pairOf ("subject=".data ++ v) = ("subject".data, v) := rfl

theorem pairOf_body (v : Str) :
    pairOf ("body=".data ++ v) = ("body".data, v) := rfl

theorem searchParamsGet_serialize_subject (s b : Str) :
    searchParamsGet (serializeQuery s b) "subject".data =
      some (formUrlDecode (formUrlEncode s)) := by
  rw [searchParamsGet, splitAmp_serializeQuery]
  rw [List.filter_cons_of_pos (by rfl), List.filter_cons_of_pos (by rfl),
    List.filter_nil]
  rw [List.findSome?_cons]
  rw [pairOf_subject]
  rw [show formUrlDecode "subject".data = "subject".data from rfl, if_pos rfl]

theorem searchParamsGet_serialize_body (s b : Str) :
    searchParamsGet (serializeQuery s b) "body".data =
      some (formUrlDecode (formUrlEncode b)) := by
  rw [searchParamsGet, splitAmp_serializeQuery]
  rw [List.filter_cons_of_pos (by rfl), List.filter_cons_of_pos (by rfl),
    List.filter_nil]
  rw [List.findSome?_cons]
  rw [pairOf_subject]
  rw [show formUrlDecode "subject".data = "subject".data from rfl,
    if_neg (by decide)]
  rw [List.findSome?_cons]
  rw [pairOf_body]
  rw [show formUrlDecode "body".data = "body".data from rfl, if_pos rfl]

theorem isFormSafe_ne_plus_pct {c : Char} (h : isFormSafe c = true) :
    ¬ c = '+' ∧ ¬ c = '%' := by
  constructor
  · intro he
    subst he
    exact absurd h (by decide)
  · intro he
    subst he
    exact absurd h (by decide)

theorem formUrlDecodeBytes_encChar {c : Char} (h : printableAscii c = true)
    (r : Str) :
    formUrlDecodeBytes (encChar c ++ r) = c.toNat :: formUrlDecodeBytes r := by
  have hlt : c.toNat < 0x80 := by
    rw [printableAscii] at h
    simp only [Bool.and_eq_true, decide_eq_true_eq] at h
    omega
  rw [encChar]
  split
  · rename_i hsafe
    obtain ⟨hp, hq⟩ := isFormSafe_ne_plus_pct hsafe
    rw [List.cons_append, List.nil_append, formUrlDecodeBytes.eq_def]
    simp [hp, hq, utf8EncodeChar_ascii hlt]
  · split
    · rename_i hsp
      subst hsp
      show formUrlDecodeBytes ('+' :: r) = (' ').toNat :: formUrlDecodeBytes r
      rw [formUrlDecodeBytes.eq_def]
      simp
    · rw [utf8EncodeChar_ascii hlt]
      rw [show ([c.toNat].flatMap pctByte : Str) = pctByte c.toNat from by
        simp]
      rw [pctByte]
      rw [show ((['%', hexUpper (c.toNat / 16), hexUpper (c.toNat % 16)] : Str)
        ++ r) = '%' :: hexUpper (c.toNat / 16) :: hexUpper (c.toNat % 16) :: r
        from rfl]
      rw [formUrlDecodeBytes.eq_def]
      simp only [hexVal_hexUpper (show c.toNat / 16 < 16 by omega),
        hexVal_hexUpper (show c.toNat % 16 < 16 by omega)]
      simp only [show ('%' = '+') = False by simp, if_false, if_pos rfl,
        reduceIte]
      rw [List.cons.injEq]
      constructor
      · omega
      · rfl

theorem utf8DecodeBytes_cons_ascii {b : Nat} (h : b < 0x80) (r : List Nat) :
    utf8DecodeBytes (b :: r) = Char.ofNat b :: utf8DecodeBytes r := by
  rw [utf8DecodeBytes, utf8DecodeBytes,
    show (b :: r : List Nat).length = r.length + 1 from by simp,
    utf8DecodeAux]
  simp [utf8DecodeStep, h]

theorem formUrlDecode_formUrlEncode {s : Str}
    (h : ∀ c ∈ s, printableAscii c = true) :
    formUrlDecode (formUrlEncode s) = s := by
  induction s with
  | nil => rfl
  | cons c cs ih =>
    have hc := h c (by simp)
    have hlt : c.toNat < 0x80 := by
      rw [printableAscii] at hc
      simp only [Bool.and_eq_true, decide_eq_true_eq] at hc
      omega
    rw [formUrlEncode, List.flatMap_cons, formUrlDecode,
      formUrlDecodeBytes_encChar hc, utf8DecodeBytes_cons_ascii hlt,
      Char.ofNat_toNat]
    have ih2 := ih (fun d hd => h d (List.mem_cons_of_mem _ hd))
    rw [formUrlDecode, formUrlEncode] at ih2
    rw [ih2]

theorem isPathEnd_false_of_ne {c : Char} (h1 : ¬ c = '?') (h2 : ¬ c = '#') :
    isPathEnd c = false := by
  rw [isPathEnd]
  simp only [Bool.or_eq_false_iff, beq_eq_false_iff_ne]
  exact ⟨h1, h2⟩

theorem isTabOrNewline_false_of_ge {c : Char} (h : 0x20 ≤ c.toNat) :
    isTabOrNewline c = false := by
  rw [isTabOrNewline]
  simp only [Bool.or_eq_false_iff, beq_eq_false_iff_ne]
  refine ⟨⟨ne_of_toNat_ne ?_, ne_of_toNat_ne ?_⟩, ne_of_toNat_ne ?_⟩
  · show c.toNat ≠ 9
    omega
  · show c.toNat ≠ 10
    omega
  · show c.toNat ≠ 13
    omega

theorem cleanUrl_urlFromTelephone (t : Str) :
    cleanUrl (urlFromTelephone t) = "tel:".data ++ cleanTail t := by
  rw [urlFromTelephone,
    cleanUrl_scheme_append tel_head_ok tel_last_ok (by decide)]

/-- C10: for every kind and every URL string, the validator the kind's
sub-form registers via `setValidator` in the registration-based variant
computes the same boolean as the `isValid` function stored for that kind
in the `subForms` registry of the registry-based variant. -/
theorem variant_validators_agree_c10 :
    ∀ (k : UrlType) (url : Str),
      Registration.validatorOf k url = Registry.subFormIsValid k url := by
  intro k url
  cases k <;> rfl


/-- C4 counterexample: the address `?` is non-empty, yet the encoded URL
`mailto:??subject=&body=` fails the email validator, because the URL
parser reads an empty pathname (everything after the first `?` is the
query); the claim asserts the validator returns true for every non-empty
address. -/
theorem email_validator_cex_c4 :
    ("?".data : Str) ≠ [] ∧
    Registry.isEmailUrlValid
      (urlFromEmailParts ⟨"?".data, "s".data, "b".data⟩) = false :=
  ⟨by decide, rfl⟩

/-- C4 amended: the email validator accepts `encode({email, subject,
body})` for any subject and body whenever the address, after the URL
parser's removal of tabs and newlines, is non-empty, does not start with
`?` or `#` (which would cut the pathname short), and does not start with
`//` (which the parser reads as an authority); for the empty address the
validator rejects, for any subject and body. -/
theorem email_validator_amended_c4 :
    (∀ p : EmailParts,
      (p.email.filter fun c => !isTabOrNewline c) ≠ [] →
      (p.email.filter fun c => !isTabOrNewline c).head? ≠ some '?' →
      (p.email.filter fun c => !isTabOrNewline c).head? ≠ some '#' →
      ¬ (['/', '/'] <+: (p.email.filter fun c => !isTabOrNewline c)) →
      Registry.isEmailUrlValid (urlFromEmailParts p) = true) ∧
    (∀ s b : Str,
      Registry.isEmailUrlValid (urlFromEmailParts ⟨[], s, b⟩) = false) := by
  constructor
  · intro p hne hq hh hs
    obtain ⟨h0, t, he⟩ := List.exists_cons_of_ne_nil hne
    have hh0 : isPathEnd h0 = false := by
      apply isPathEnd_false_of_ne
      · intro hx
        subst hx
        rw [he] at hq
        exact hq rfl
      · intro hx
        subst hx
        rw [he] at hh
        exact hh rfl
    rw [Registry.isEmailUrlValid]
    simp only [emailPartsFromUrl, parseUrl_urlFromEmailParts]
    rw [he, parseAfterScheme_path_cons hh0 (he ▸ hs)]
    simp
  · intro s b
    rw [Registry.isEmailUrlValid]
    simp only [emailPartsFromUrl, parseUrl_urlFromEmailParts]
    rw [show (([] : Str).filter fun c => !isTabOrNewline c) = [] from rfl,
      List.nil_append]
    rw [show ∀ qs0 : Str, parseAfterScheme ('?' :: qs0) =
      some (([] : Str), qs0.takeWhile fun c => !(c == '#')) from fun _ => rfl]
    simp

/-- C4 amended witness: the address `a@b.com` is accepted for subject `s`
and body `b`; the empty address is rejected. -/
theorem email_validator_amended_c4_witness :
    Registry.isEmailUrlValid
      (urlFromEmailParts ⟨"a@b.com".data, "s".data, "b".data⟩) = true ∧
    Registry.isEmailUrlValid
      (urlFromEmailParts ⟨[], "s".data, "b".data⟩) = false :=
  ⟨email_validator_amended_c4.1 ⟨"a@b.com".data, "s".data, "b".data⟩
      (by decide) (by decide) (by decide) (by decide),
    email_validator_amended_c4.2 "s".data "b".data⟩

/-- C5 counterexample: for the printable-ASCII field set with address
`?` and empty subject and body, decoding the encoded URL yields the
all-empty field set, not the original fields; the claim asserts the
round-trip for every printable-ASCII field set. -/
theorem roundtrip_cex_c5 :
    (∀ c ∈ ("?".data : Str), printableAscii c = true) ∧
    emailPartsFromUrl (urlFromEmailParts ⟨"?".data, [], []⟩) ≠
      ⟨"?".data, [], []⟩ := by
  constructor
  · decide
  · intro h
    rw [show emailPartsFromUrl (urlFromEmailParts ⟨"?".data, [], []⟩) =
      (⟨[], [], []⟩ : EmailParts) from rfl] at h
    exact absurd h (by decide)

/-- C5 amended: decode is a left inverse of encode for the telephone
codec on every printable-ASCII telephone string, and for the email codec
on every printable-ASCII field set whose address contains no `?` and no
`#`, does not start with `/` (a slash-led address is parsed in the
path state, which dot-normalizes segments and percent-encodes spaces)
and does not end with a space (which the parser percent-encodes just
before the query). -/
theorem roundtrip_amended_c5 :
    (∀ t : Str, (∀ c ∈ t, printableAscii c = true) →
      telephoneFromUrl (urlFromTelephone t) = t) ∧
    (∀ p : EmailParts,
      (∀ c ∈ p.email, printableAscii c = true) →
      (∀ c ∈ p.subject, printableAscii c = true) →
      (∀ c ∈ p.body, printableAscii c = true) →
      '?' ∉ p.email → '#' ∉ p.email →
      p.email.head? ≠ some '/' → p.email.getLast? ≠ some ' ' →
      emailPartsFromUrl (urlFromEmailParts p) = p) := by
  constructor
  · intro t _
    rw [telephoneFromUrl, urlFromTelephone, replaceFirstTel_tel_append]
  · rintro ⟨e, s, b⟩ he hs hb hq hh hsl _hsp
    have hePath : ∀ c ∈ (e : Str), isPathEnd c = false := by
      intro c hc
      apply isPathEnd_false_of_ne
      · intro hx
        subst hx
        exact hq hc
      · intro hx
        subst hx
        exact hh hc
    have hslash : ¬ (['/', '/'] <+: (e : Str)) := by
      intro hpre
      obtain ⟨t0, ht0⟩ := hpre
      apply hsl
      rw [← ht0]
      rfl
    have hfilter : ((e : Str).filter fun c => !isTabOrNewline c) = e := by
      apply List.filter_eq_self.mpr
      intro a ha
      have hpa := he a ha
      rw [printableAscii] at hpa
      simp only [Bool.and_eq_true, decide_eq_true_eq] at hpa
      rw [isTabOrNewline_false_of_ge (by omega)]
      rfl
    simp only [emailPartsFromUrl, parseUrl_urlFromEmailParts]
    rw [hfilter, parseAfterScheme_opaque hePath hslash
      (serializeQuery_hash_false s b)]
    simp only [Option.map_some']
    rw [searchParamsGet_serialize_subject, searchParamsGet_serialize_body]
    rw [formUrlDecode_formUrlEncode hs, formUrlDecode_formUrlEncode hb]
    rfl

/-- C5 amended witness: the round-trip evaluated on `0411` and on the
field set `a@b.com` / `hi there` / `x+y%`. -/
theorem roundtrip_amended_c5_witness :
    telephoneFromUrl (urlFromTelephone "0411".data) = "0411".data ∧
    emailPartsFromUrl (urlFromEmailParts
        ⟨"a@b.com".data, "hi there".data, "x+y%".data⟩) =
      ⟨"a@b.com".data, "hi there".data, "x+y%".data⟩ :=
  ⟨roundtrip_amended_c5.1 "0411".data (by decide),
    roundtrip_amended_c5.2 ⟨"a@b.com".data, "hi there".data, "x+y%".data⟩
      (by decide) (by decide) (by decide) (by decide) (by decide) (by decide)
      (by decide)⟩

/-- C9 counterexample: the field set with address `//a b` encodes to
`mailto://a b?subject=&body=`, which the URL constructor rejects — after
`//` it parses an authority, and the space is a forbidden host code
point — so encode does not always produce a syntactically well-formed
URL; the telephone field `//a b` fails the same way. -/
theorem encode_wellformed_cex_c9 :
    parseUrl (urlFromEmailParts ⟨"//a b".data, [], []⟩) = none ∧
    parseUrl (urlFromTelephone "//a b".data) = none :=
  ⟨rfl, rfl⟩

/-- C9 amended: both decode functions are total Lean functions on all
strings, and a URL the parser rejects decodes to the all-empty field
record rather than an error; the encodes, however, are well-formed only
away from authority-like inputs: whenever the address — after the
parser's tab and newline removal — does not start with `//` (for the
telephone field, after trailing-whitespace trimming as well), the
encoded URL parses with the expected scheme, and the all-empty field
sets encode to `mailto:?subject=&body=` and `tel:`. -/
theorem codec_totality_c9 :
    (∀ url : Str, parseUrl url = none → emailPartsFromUrl url = ⟨[], [], []⟩) ∧
    (∀ p : EmailParts,
      ¬ (['/', '/'] <+: (p.email.filter fun c => !isTabOrNewline c)) →
      ∃ u : URLRec, parseUrl (urlFromEmailParts p) = some u ∧
        u.scheme = "mailto".data) ∧
    (∀ t : Str, ¬ (['/', '/'] <+: cleanTail t) →
      ∃ u : URLRec, parseUrl (urlFromTelephone t) = some u ∧
        u.scheme = "tel".data) ∧
    urlFromEmailParts ⟨[], [], []⟩ = "mailto:?subject=&body=".data ∧
    urlFromTelephone [] = "tel:".data := by
  refine ⟨?_, ?_, ?_, rfl, rfl⟩
  · intro url h
    rw [emailPartsFromUrl, h]
  · intro p hp
    have h2 : ¬ (['/', '/'] <+: ((p.email.filter fun c => !isTabOrNewline c) ++
        '?' :: serializeQuery p.subject p.body)) :=
      fun hpre => hp (slashslash_of_append hpre)
    refine ⟨⟨"mailto".data,
      ((p.email.filter fun c => !isTabOrNewline c) ++
        '?' :: serializeQuery p.subject p.body).takeWhile fun c => !isPathEnd c,
      extractSearch (((p.email.filter fun c => !isTabOrNewline c) ++
        '?' :: serializeQuery p.subject p.body).dropWhile
        fun c => !isPathEnd c)⟩, ?_, rfl⟩
    rw [parseUrl_urlFromEmailParts, parseAfterScheme_not_authority h2,
      Option.map_some']
  · intro t ht
    have hps : parseUrl (urlFromTelephone t) =
        (parseAfterScheme (cleanTail t)).map
          fun pq => ⟨"tel".data, pq.1, pq.2⟩ := by
      rw [parseUrl, cleanUrl_urlFromTelephone, parseScheme_tel]
    refine ⟨⟨"tel".data,
      (cleanTail t).takeWhile fun c => !isPathEnd c,
      extractSearch ((cleanTail t).dropWhile fun c => !isPathEnd c)⟩, ?_, rfl⟩
    rw [hps, parseAfterScheme_not_authority ht, Option.map_some']

/-- C9 amended witness: the decode fallback at the empty string, and the
two encode conjuncts at address `a@b.com` and telephone `0411`. -/
theorem codec_totality_c9_witness :
    emailPartsFromUrl [] = ⟨[], [], []⟩ ∧
    (∃ u : URLRec, parseUrl (urlFromEmailParts ⟨"a@b.com".data, [], []⟩) =
      some u ∧ u.scheme = "mailto".data) ∧
    (∃ u : URLRec, parseUrl (urlFromTelephone "0411".data) = some u ∧
      u.scheme = "tel".data) :=
  ⟨codec_totality_c9.1 [] rfl,
    codec_totality_c9.2.1 ⟨"a@b.com".data, [], []⟩ (by decide),
    codec_totality_c9.2.2.1 "0411".data (by decide)⟩

end ReactDilemma